import Mathlib

/-!
Shallow embedding of the `go-backup-docker-image` tool (`main.go`).

The program backs up Docker images to tar archives (optionally gzip
compressed), writes a JSON metadata sidecar next to each archive, restores
images from such archives, and lists a backup directory.  Go strings are
modelled as `List Char`; external effects (the Docker engine, subprocesses,
the file system) are modelled as explicit environment values; the
semaphore-gated goroutine pool is modelled as a labelled transition system.
-/

/-- Go strings are modelled as lists of characters. -/
abbrev Str := List Char

/-- The character list of a Lean string literal (used for Go string literals). -/
def strL (s : String) : Str := s.data

/-- Model of Go `strings.HasSuffix s t`: `t` occurs at the end of `s`. -/
def hasSuffix (s t : Str) : Bool := decide (t <:+ s)

/-- Model of Go `strings.TrimSuffix s t`. -/
def trimSuffix (s t : Str) : Str :=
  if hasSuffix s t then s.take (s.length - t.length) else s

/-- Model of Go `strings.ReplaceAll s old new` for a one-character pattern,
which is exactly a character map. -/
def replaceAllChar (s : Str) (old new : Char) : Str :=
  s.map (fun c => if c = old then new else c)

/-- Model of Go `filepath.Join dir name` for a nonempty relative `name`
(the tool always joins a directory with a generated file name). -/
def filepathJoin (dir name : Str) : Str :=
  if dir.isEmpty then name else dir ++ strL "/" ++ name

/-- The global `Config` struct of `main.go` (lines 21-26). -/
structure Config where
  backupDir : Str
  maxWorkers : Nat
  verbose : Bool
  compressType : Str
deriving DecidableEq

/-- The `ImageInfo` sidecar record of `main.go` (lines 29-36); time instants
are modelled as naturals. -/
structure ImageInfo where
  imageName : Str
  imageID : Str
  tags : List Str
  size : Int
  backupDate : Nat
  compressType : Str
deriving DecidableEq

/-- Sanitization step of `backupImage` (lines 195-196): two successive
`ReplaceAll` passes, `/` then `:`, each replaced by `_`. -/
def safeImageName (imageName : Str) : Str :=
  replaceAllChar (replaceAllChar imageName '/' '_') ':' '_'

/-- Archive naming of `backupImage` (lines 197-202): join the backup
directory with `{safe}-{timestamp}.tar`, then append `.gz` when the
configured compression type is the string `gzip`.  The formatted timestamp
is passed in as `ts`. -/
def tarballName (cfg : Config) (imageName ts : Str) : Str :=
  let base := filepathJoin cfg.backupDir
    (safeImageName imageName ++ strL "-" ++ ts ++ strL ".tar")
  if cfg.compressType = strL "gzip" then base ++ strL ".gz" else base

/-- Sidecar path of `backupImage` (line 233) and `restoreImage` (line 317):
the archive path with `.json` appended. -/
def metadataPathOf (tarball : Str) : Str := tarball ++ strL ".json"

/-- Outcome of the sidecar probe performed by `restoreImage` (lines
317-336): the file may be absent (`os.Stat` fails), unreadable (`os.Open`
fails), malformed (JSON decode fails), or parsed. -/
inductive SidecarView where
  | absent
  | unreadable
  | malformed
  | parsed (info : ImageInfo)
deriving DecidableEq

/-- Compression detection of `restoreImage` (lines 318-337): `compressed`
starts `false`; a `.tar.gz` or `.tgz` path suffix forces `true`; otherwise a
successfully parsed sidecar sets it to whether its `compress_type` equals
`gzip`; every failure along the sidecar probe leaves it `false`. -/
def restoreCompressed (tarballPath : Str) (sidecar : SidecarView) : Bool :=
  if hasSuffix tarballPath (strL ".tar.gz") || hasSuffix tarballPath (strL ".tgz") then
    true
  else
    match sidecar with
    | .parsed info => info.compressType = strL "gzip"
    | _ => false

/-- The two load commands `restoreImage` can issue (lines 341-347). -/
inductive LoadCommand where
  | gunzipPipe (tarballPath : Str)
  | dockerLoad (tarballPath : Str)
deriving DecidableEq

/-- Command selection of `restoreImage` (lines 341-347). -/
def restoreLoadCommand (tarballPath : Str) (sidecar : SidecarView) : LoadCommand :=
  if restoreCompressed tarballPath sidecar then .gunzipPipe tarballPath
  else .dockerLoad tarballPath

/-- Environment of one restore item: the sidecar probe outcome and whether
the load subprocess succeeds. -/
structure RestoreEnv where
  sidecar : SidecarView
  loadOk : Bool
deriving DecidableEq

/-- Result of `restoreImage`: the load either fails (logged, early return,
lines 349-353) or succeeds; both record the command that ran. -/
inductive RestoreOutcome where
  | loadFailed (cmd : LoadCommand)
  | restored (cmd : LoadCommand)
deriving DecidableEq

/-- The per-item restore pipeline `restoreImage` (lines 311-357). -/
def restoreImage (env : RestoreEnv) (tarballPath : Str) : RestoreOutcome :=
  let cmd := restoreLoadCommand tarballPath env.sidecar
  if env.loadOk then .restored cmd else .loadFailed cmd

/-- The spec's `CompressionKind` enum (§3). -/
inductive CompressionKind where
  | none
  | gzip
deriving DecidableEq

/-- Compression kind actually selected by the restore code. -/
def restoreKind (tarballPath : Str) (sidecar : SidecarView) : CompressionKind :=
  if restoreCompressed tarballPath sidecar then .gzip else .none

/-- Spec-side restatement of the detection policy of §4.4, written from the
spec's words: recognized compressed path suffix first, else the parsed
sidecar's compression field, else `none`. -/
def specRestoreKind (tarballPath : Str) (sidecar : SidecarView) : CompressionKind :=
  if hasSuffix tarballPath (strL ".tar.gz") || hasSuffix tarballPath (strL ".tgz") then
    .gzip
  else
    match sidecar with
    | .parsed info => if info.compressType = strL "gzip" then .gzip else .none
    | _ => .none

/-- Result of `cli.ImageInspectWithRaw` (line 189): the fields of the
inspected image that `backupImage` reads. -/
structure ImageInspect where
  id : Str
  repoTags : List Str
  size : Int
deriving DecidableEq

/-- Environment of one backup item: the inspect result (`none` models an
inspect error), whether the save subprocess, the sidecar `os.Create` and the
JSON encode succeed, and the wall-clock instant recorded as `BackupDate`. -/
structure BackupEnv where
  inspect : Option ImageInspect
  saveOk : Bool
  createMetaOk : Bool
  encodeOk : Bool
  backupDate : Nat
deriving DecidableEq

/-- The early returns and the success exit of `backupImage` (lines 184-249).
Every item-level error is a value of this type: the pipeline never throws. -/
inductive BackupOutcome where
  | inspectFailed
  | saveFailed
  | metadataCreateFailed
  | metadataEncodeFailed
  | backedUp (tarball : Str) (info : ImageInfo)
deriving DecidableEq

/-- The per-item backup pipeline `backupImage` (lines 184-249), threading
the set of files it creates (modelled as a list of paths, newest first).
Inspect error, save error, sidecar create error and sidecar encode error
each log and return early, exactly as in the source; a failed save is
modelled as writing nothing. -/
def backupImage (cfg : Config) (env : BackupEnv) (imageName ts : Str)
    (fs : List Str) : BackupOutcome × List Str :=
  match env.inspect with
  | none => (.inspectFailed, fs)
  | some img =>
    let tarball := tarballName cfg imageName ts
    if env.saveOk then
      let fs1 := tarball :: fs
      let info : ImageInfo :=
        ⟨imageName, img.id, img.repoTags, img.size, env.backupDate, cfg.compressType⟩
      if env.createMetaOk then
        let fs2 := metadataPathOf tarball :: fs1
        if env.encodeOk then (.backedUp tarball info, fs2)
        else (.metadataEncodeFailed, fs2)
      else (.metadataCreateFailed, fs1)
    else (.saveFailed, fs)

/-- Outcome component of one backup item, starting from an empty file set. -/
def backupOutcome (cfg : Config) (env : BackupEnv) (imageName ts : Str) :
    BackupOutcome :=
  (backupImage cfg env imageName ts []).1

/-- Outcomes of a whole backup batch (lines 164-180): one pipeline run per
resolved image name, each against its own environment and timestamp. -/
def backupBatchOutcomes (cfg : Config) (env : Str → BackupEnv) (ts : Str → Str)
    (imageNames : List Str) : List BackupOutcome :=
  imageNames.map (fun img => backupOutcome cfg (env img) img (ts img))

/-- Outcomes of a whole restore batch (lines 293-308). -/
def restoreBatchOutcomes (env : Str → RestoreEnv) (tarballPaths : List Str) :
    List RestoreOutcome :=
  tarballPaths.map (fun p => restoreImage (env p) p)

/-- The `log.Fatal` exits of `runBackup` (lines 148-161) and `runRestore`
(lines 289-291), all of which happen before any worker is spawned. -/
inductive FatalError where
  | noWorkItems
  | mkdirFailed
  | dockerClientFailed
deriving DecidableEq

/-- Environment of `runBackup` beyond the per-item environments: whether
`os.MkdirAll` and the Docker client creation succeed. -/
structure RunBackupEnv where
  mkdirOk : Bool
  clientOk : Bool
  itemEnv : Str → BackupEnv
  itemTime : Str → Str

/-- Control flow of `runBackup` (lines 148-181) after input resolution:
empty item list, directory creation failure and client creation failure are
fatal, in that order; otherwise the batch runs to completion. -/
def runBackupResolved (cfg : Config) (env : RunBackupEnv)
    (imageNames : List Str) : Except FatalError (List BackupOutcome) :=
  if imageNames.length = 0 then .error .noWorkItems
  else if env.mkdirOk then
    if env.clientOk then
      .ok (backupBatchOutcomes cfg env.itemEnv env.itemTime imageNames)
    else .error .dockerClientFailed
  else .error .mkdirFailed

/-- Control flow of `runRestore` (lines 289-309) after input resolution:
an empty path list is fatal; otherwise the batch runs to completion. -/
def runRestoreResolved (env : Str → RestoreEnv) (tarballPaths : List Str) :
    Except FatalError (List RestoreOutcome) :=
  if tarballPaths.length = 0 then .error .noWorkItems
  else .ok (restoreBatchOutcomes env tarballPaths)

/-- One entry of `os.ReadDir` as `runList` consumes it (lines 373-382):
name, directory flag, whether `file.Info()` succeeds, and the attributes
read from it. -/
structure DirEntry where
  name : Str
  isDir : Bool
  infoOk : Bool
  size : Int
  modTime : Nat
deriving DecidableEq

/-- Archive classification of `runList` (line 384). -/
def isArchiveName (name : Str) : Bool :=
  hasSuffix name (strL ".tar") || hasSuffix name (strL ".tar.gz") ||
    hasSuffix name (strL ".tgz")

/-- The `tarFiles` map of `runList` (lines 370-385) as an association list:
every regular file with a readable info and an archive suffix, keyed by its
name.  Directory names are unique, so the association list is faithful to
the Go map. -/
def tarFiles (entries : List DirEntry) : List (Str × DirEntry) :=
  entries.filterMap (fun e =>
    if e.isDir = false ∧ e.infoOk = true ∧ isArchiveName e.name = true then
      some (e.name, e)
    else none)

/-- The `metaFiles` map of `runList` (lines 386-399): every regular
non-archive file ending in `.json` whose content opens and decodes
(`content` returns `some`), keyed by its name with `.json` trimmed.
A malformed or unreadable sidecar contributes nothing. -/
def metaFiles (entries : List DirEntry) (content : Str → Option ImageInfo) :
    List (Str × ImageInfo) :=
  entries.filterMap (fun e =>
    if e.isDir = false ∧ e.infoOk = true ∧ isArchiveName e.name = false ∧
        hasSuffix e.name (strL ".json") = true then
      (content e.name).map (fun info => (trimSuffix e.name (strL ".json"), info))
    else none)

/-- One listing block printed by `runList` (lines 411-426): archive name,
attributes, and the optional enrichment from the sidecar map. -/
structure CatalogEntry where
  name : Str
  size : Int
  modTime : Nat
  meta : Option ImageInfo
deriving DecidableEq

/-- The keys of the `tarFiles` map. -/
def tarKeys (entries : List DirEntry) : List Str :=
  (tarFiles entries).map Prod.fst

/-- The listing loop of `runList` (lines 411-426).  Go map iteration order
is not deterministic, so the order in which the keys are visited is an
explicit parameter; a faithful run visits each key of `tarFiles` exactly
once, i.e. `order` is a permutation of `tarKeys`. -/
def catalogListing (entries : List DirEntry) (content : Str → Option ImageInfo)
    (order : List Str) : List CatalogEntry :=
  order.filterMap (fun n =>
    (List.lookup n (tarFiles entries)).map (fun e =>
      ⟨n, e.size, e.modTime, List.lookup n (metaFiles entries content)⟩))

/-- State of the semaphore-gated goroutine pool of `runBackup` (lines
164-179) and `runRestore` (lines 293-307): the work items the main loop has
not yet handed to a goroutine (in loop order), the multiset of items whose
goroutine holds a semaphore slot and has not finished, and the multiset of
items whose goroutine has completed (slot released, `wg.Done` run). -/
structure OrchState (ι : Type) where
  pending : List ι
  running : Multiset ι
  finished : Multiset ι

/-- Transitions of the pool.  `spawn` models one main-loop iteration:
`wg.Add(1)` followed by a semaphore acquire — which blocks unless fewer than
`limit` (the channel capacity `config.MaxWorkers`) slots are held — and the
goroutine launch for the next item in order.  `done` models one goroutine
completing its pipeline call (success or caught failure alike), releasing
its slot and running `wg.Done`. -/
inductive OrchStep {ι : Type} (limit : Nat) : OrchState ι → OrchState ι → Prop
  | spawn (x : ι) (p : List ι) (r f : Multiset ι) :
      Multiset.card r < limit → OrchStep limit ⟨x :: p, r, f⟩ ⟨p, x ::ₘ r, f⟩
  | done (x : ι) (p : List ι) (r f : Multiset ι) :
      OrchStep limit ⟨p, x ::ₘ r, f⟩ ⟨p, r, x ::ₘ f⟩

/-- Initial pool state: every resolved item pending, nothing running. -/
def orchStart {ι : Type} (items : List ι) : OrchState ι := ⟨items, 0, 0⟩

/-- States the pool can reach from the start state. -/
def OrchReachable {ι : Type} (limit : Nat) (items : List ι)
    (s : OrchState ι) : Prop :=
  Relation.ReflTransGen (OrchStep limit) (orchStart items) s

/-- The condition under which the caller passes `wg.Wait` (lines 179, 307):
the main loop has exhausted its items and every spawned goroutine has run
`wg.Done`. -/
def orchReturned {ι : Type} (s : OrchState ι) : Prop :=
  s.pending = [] ∧ s.running = 0

/-- Pool invariant: at most `limit` task invocations are in flight, and the
pending, running and finished items together are exactly the input items. -/
lemma orch_invariant {ι : Type} (limit : Nat) (items : List ι)
    (s : OrchState ι) (h : OrchReachable limit items s) :
    Multiset.card s.running ≤ limit ∧
      (↑s.pending + s.running + s.finished : Multiset ι) = ↑items := by
  induction h with
  | refl => simp [orchStart]
  | tail hr step ih =>
    obtain ⟨ih1, ih2⟩ := ih
    cases step with
    | spawn x p r f hc =>
      refine ⟨by simpa using hc, ?_⟩
      simp only [← Multiset.cons_coe, Multiset.cons_add, Multiset.add_cons] at ih2 ⊢
      exact ih2
    | done x p r f =>
      refine ⟨le_trans (by simp) ih1, ?_⟩
      simp only [Multiset.cons_add, Multiset.add_cons] at ih2 ⊢
      exact ih2

/-- Unfolding of `hasSuffix` into the list suffix relation. -/
lemma hasSuffix_iff {s t : Str} : hasSuffix s t = true ↔ t <:+ s := by
  simp [hasSuffix]

/-- Appending a suffix makes `hasSuffix` hold. -/
lemma hasSuffix_append (l t : Str) : hasSuffix (l ++ t) t = true :=
  hasSuffix_iff.mpr (List.suffix_append l t)

/-- Trimming a suffix that was just appended recovers the original list. -/
lemma trimSuffix_append (b t : Str) : trimSuffix (b ++ t) t = b := by
  simp [trimSuffix, hasSuffix_append, List.length_append, List.take_left]

/-- A list decomposes as its trimmed part followed by any suffix it has. -/
lemma eq_trimSuffix_append {s t : Str} (h : hasSuffix s t = true) :
    s = trimSuffix s t ++ t := by
  obtain ⟨u, rfl⟩ := hasSuffix_iff.mp h
  rw [trimSuffix_append]

/-- A nonempty suffix fixes the last element. -/
lemma getLast?_of_suffix {s t : Str} (h : t <:+ s) (ht : t ≠ []) :
    s.getLast? = t.getLast? := by
  obtain ⟨u, rfl⟩ := h
  exact List.getLast?_append_of_ne_nil u ht

/-- A name ending in `.json` ends in none of the archive suffixes, so the
two classification branches of `runList` are mutually exclusive. -/
lemma json_not_archive {n : Str} (h : hasSuffix n (strL ".json") = true) :
    isArchiveName n = false := by
  have hn : n.getLast? = some 'n' := by
    rw [getLast?_of_suffix (hasSuffix_iff.mp h) (by decide)]; decide
  unfold isArchiveName
  rw [Bool.or_eq_false_iff, Bool.or_eq_false_iff]
  refine ⟨⟨?_, ?_⟩, ?_⟩ <;> rw [Bool.eq_false_iff] <;> intro hc <;>
    [ (have hr : n.getLast? = some 'r' := by
        rw [getLast?_of_suffix (hasSuffix_iff.mp hc) (by decide)]; decide);
      (have hr : n.getLast? = some 'z' := by
        rw [getLast?_of_suffix (hasSuffix_iff.mp hc) (by decide)]; decide);
      (have hr : n.getLast? = some 'z' := by
        rw [getLast?_of_suffix (hasSuffix_iff.mp hc) (by decide)]; decide)] <;>
    rw [hn] at hr <;> exact absurd hr (by decide)

/-- A suffix survives appending the same list on the right. -/
lemma suffix_append_right {s t : Str} (u : Str) (h : t <:+ s) :
    t ++ u <:+ s ++ u := by
  obtain ⟨w, rfl⟩ := h
  exact ⟨w, (List.append_assoc w t u).symm⟩

/-- The joined name is a suffix of the joined path. -/
lemma suffix_filepathJoin (dir y : Str) : y <:+ filepathJoin dir y := by
  unfold filepathJoin
  split
  · exact List.suffix_refl y
  · rw [List.append_assoc]
    exact (List.suffix_append (strL "/") y).trans (List.suffix_append dir _)

/-- Joining commutes with appending to the file name. -/
lemma filepathJoin_append (dir y u : Str) :
    filepathJoin dir y ++ u = filepathJoin dir (y ++ u) := by
  unfold filepathJoin
  split <;> simp [List.append_assoc]

/-- Lookup in an association list whose keys are distinct finds exactly the
stored pair. -/
lemma lookup_of_mem_of_nodup {β : Type} {l : List (Str × β)} {k : Str} {v : β}
    (hnd : (l.map Prod.fst).Nodup) (hm : (k, v) ∈ l) :
    List.lookup k l = some v := by
  induction l with
  | nil => cases hm
  | cons a tl ih =>
    obtain ⟨k', v'⟩ := a
    simp only [List.map_cons, List.nodup_cons] at hnd
    rcases List.mem_cons.mp hm with h | h
    · obtain ⟨rfl, rfl⟩ := Prod.mk.injEq .. ▸ h
      simp [List.lookup]
    · have hk : k ≠ k' := by
        rintro rfl
        exact hnd.1 (List.mem_map.mpr ⟨(k, v), h, rfl⟩)
      have hbeq : (k == k') = false := beq_false_of_ne hk
      rw [List.lookup, hbeq]
      exact ih hnd.2 h

/-- Lookup misses every key that is not in the association list. -/
lemma lookup_eq_none_of_not_mem {β : Type} {l : List (Str × β)} {k : Str}
    (h : k ∉ l.map Prod.fst) : List.lookup k l = none := by
  induction l with
  | nil => rfl
  | cons a tl ih =>
    obtain ⟨k', v'⟩ := a
    simp only [List.map_cons, List.mem_cons] at h
    push_neg at h
    have hbeq : (k == k') = false := beq_false_of_ne h.1
    rw [List.lookup, hbeq]
    exact ih h.2

/-- Membership in the `tarFiles` map, characterized by the source conditions
of lines 373-385. -/
lemma mem_tarFiles_iff {entries : List DirEntry} {k : Str} {v : DirEntry} :
    (k, v) ∈ tarFiles entries ↔
      v ∈ entries ∧ v.name = k ∧ v.isDir = false ∧ v.infoOk = true ∧
        isArchiveName v.name = true := by
  constructor
  · intro hm
    obtain ⟨e, he, hf⟩ := List.mem_filterMap.mp hm
    by_cases hc : e.isDir = false ∧ e.infoOk = true ∧ isArchiveName e.name = true
    · rw [if_pos hc] at hf
      obtain ⟨hk, hv⟩ := Prod.mk.injEq .. ▸ Option.some.injEq .. ▸ hf
      exact hv ▸ ⟨he, hk ▸ rfl, hc⟩
    · simp [hc] at hf
  · rintro ⟨hv, rfl, h1, h2, h3⟩
    exact List.mem_filterMap.mpr ⟨v, hv, by simp [h1, h2, h3]⟩

/-- The keys of `tarFiles` form a sublist of the directory names. -/
lemma tarKeys_sublist (entries : List DirEntry) :
    ((tarFiles entries).map Prod.fst).Sublist (entries.map DirEntry.name) := by
  induction entries with
  | nil => simp [tarFiles]
  | cons a tl ih =>
    unfold tarFiles at ih ⊢
    rw [List.filterMap_cons]
    by_cases hc : a.isDir = false ∧ a.infoOk = true ∧ isArchiveName a.name = true
    · rw [if_pos hc]
      simpa using List.Sublist.cons₂ a.name ih
    · rw [if_neg hc]
      exact ih.trans (List.sublist_cons_self a.name (tl.map DirEntry.name))

/-- Distinct directory names give distinct `tarFiles` keys. -/
lemma tarKeys_nodup {entries : List DirEntry}
    (hnd : (entries.map DirEntry.name).Nodup) :
    ((tarFiles entries).map Prod.fst).Nodup :=
  hnd.sublist (tarKeys_sublist entries)

/-- Membership in the `metaFiles` map, characterized by the source
conditions of lines 386-399: the contributing entry is exactly the file
named `b ++ ".json"`. -/
lemma mem_metaFiles_iff {entries : List DirEntry}
    {content : Str → Option ImageInfo} {b : Str} {i : ImageInfo} :
    (b, i) ∈ metaFiles entries content ↔
      ∃ e ∈ entries, e.isDir = false ∧ e.infoOk = true ∧
        e.name = b ++ strL ".json" ∧ content e.name = some i := by
  constructor
  · intro hm
    obtain ⟨e, he, hf⟩ := List.mem_filterMap.mp hm
    by_cases hc : e.isDir = false ∧ e.infoOk = true ∧
        isArchiveName e.name = false ∧ hasSuffix e.name (strL ".json") = true
    · rw [if_pos hc] at hf
      cases hco : content e.name with
      | none => rw [hco] at hf; cases hf
      | some j =>
        rw [hco] at hf
        obtain ⟨hb, hj⟩ := Prod.mk.injEq .. ▸ Option.some.injEq .. ▸ hf
        refine ⟨e, he, hc.1, hc.2.1, ?_, by rw [hco, hj]⟩
        rw [← hb]
        exact eq_trimSuffix_append hc.2.2.2
    · rw [if_neg hc] at hf
      cases hf
  · rintro ⟨e, he, h1, h2, hname, hcont⟩
    refine List.mem_filterMap.mpr ⟨e, he, ?_⟩
    have hjs : hasSuffix e.name (strL ".json") = true := by
      rw [hname]; exact hasSuffix_append b (strL ".json")
    rw [if_pos ⟨h1, h2, json_not_archive hjs, hjs⟩, hcont]
    simp only [Option.map_some']
    rw [hname, trimSuffix_append]

/-- Distinct directory names give distinct `metaFiles` keys. -/
lemma metaKeys_nodup {entries : List DirEntry}
    (content : Str → Option ImageInfo)
    (hnd : (entries.map DirEntry.name).Nodup) :
    ((metaFiles entries content).map Prod.fst).Nodup := by
  induction entries with
  | nil => simp [metaFiles]
  | cons a tl ih =>
    simp only [List.map_cons, List.nodup_cons] at hnd
    have ihtl := ih hnd.2
    unfold metaFiles at ihtl ⊢
    rw [List.filterMap_cons]
    by_cases hc : a.isDir = false ∧ a.infoOk = true ∧
        isArchiveName a.name = false ∧ hasSuffix a.name (strL ".json") = true
    · rw [if_pos hc]
      cases hco : content a.name with
      | none => simpa using ihtl
      | some j =>
        simp only [Option.map_some', List.map_cons]
        refine List.nodup_cons.mpr ⟨?_, ihtl⟩
        intro hmem
        obtain ⟨⟨k, i⟩, hki, hfst⟩ := List.mem_map.mp hmem
        have hki2 : (trimSuffix a.name (strL ".json"), i) ∈ metaFiles tl content := by
          rw [show trimSuffix a.name (strL ".json") = k from hfst.symm ▸ rfl]
          exact hki
        obtain ⟨e, he, _, _, hename, _⟩ := mem_metaFiles_iff.mp hki2
        have : a.name = e.name := by
          rw [hename, ← eq_trimSuffix_append hc.2.2.2]
        exact hnd.1 (this ▸ List.mem_map.mpr ⟨e, he, rfl⟩)
    · rw [if_neg hc]
      exact ihtl

/-- The spec's binding (§3) between the configured compression string and
the `CompressionKind` enum: `gzip` exactly for the string `gzip`. -/
def compressionKindOf (compressType : Str) : CompressionKind :=
  if compressType = strL "gzip" then .gzip else .none

/-- Spec-side restatement of the archive naming rule (§4.2/§6), written
from the spec's words: `{sanitized_item}-{timestamp}.tar` under the backup
directory, with `.gz` appended exactly for `gzip`. -/
def specArchivePath (dir base ts : Str) (kind : CompressionKind) : Str :=
  filepathJoin dir (base ++ strL "-" ++ ts ++ strL ".tar" ++
    (match kind with
     | .gzip => strL ".gz"
     | .none => []))

/-- C1: for every restore work item path, the compression kind used by the
restore pipeline follows the strict priority order of the spec: a `.tar.gz`
or `.tgz` path suffix forces gzip regardless of the sidecar, otherwise a
successfully parsed sidecar decides by whether its `compress_type` field is
`gzip`, otherwise the item is treated as uncompressed. -/
theorem restore_detection_priority (tarballPath : Str) (sidecar : SidecarView) :
    restoreKind tarballPath sidecar = specRestoreKind tarballPath sidecar := by
  unfold restoreKind specRestoreKind restoreCompressed
  split
  · rfl
  · cases sidecar <;> simp

/-- C2: for every item list and every `worker_limit ≥ 1`, every reachable
state of the pool has at most `worker_limit` task invocations in flight, the
pending, running and finished items are together exactly the input items
(so the task runs exactly once per item, never more), and in any state where
`wg.Wait` lets the caller return, the finished multiset is exactly the input
items: all N invocations have completed. -/
theorem orchestrator_bounded_exactly_once_join {ι : Type} (limit : Nat)
    (items : List ι) (s : OrchState ι) (hpos : 1 ≤ limit)
    (hreach : OrchReachable limit items s) :
    Multiset.card s.running ≤ limit ∧
      (↑s.pending + s.running + s.finished : Multiset ι) = ↑items ∧
      (orchReturned s → s.finished = ↑items) := by
  obtain ⟨h1, h2⟩ := orch_invariant limit items s hreach
  refine ⟨h1, h2, ?_⟩
  rintro ⟨hp, hr⟩
  rw [hp, hr] at h2
  simpa using h2

/-- Witness for C2: with one worker and the single item `7`, the run that
spawns and finishes the item reaches the returned state with `7` finished. -/
theorem orchestrator_bounded_exactly_once_join_witness :
    1 ≤ 1 ∧
      (⟨[], 0, (7 : Nat) ::ₘ 0⟩ : OrchState Nat).finished =
        (↑([7] : List Nat) : Multiset Nat) := by
  have h1 : OrchStep 1 (⟨[7], 0, 0⟩ : OrchState Nat) ⟨[], 7 ::ₘ 0, 0⟩ :=
    OrchStep.spawn 7 [] 0 0 (by simp)
  have h2 : OrchStep 1 (⟨[], 7 ::ₘ 0, 0⟩ : OrchState Nat) ⟨[], 0, 7 ::ₘ 0⟩ :=
    OrchStep.done 7 [] 0 0
  have hreach : OrchReachable 1 [7] (⟨[], 0, 7 ::ₘ 0⟩ : OrchState Nat) :=
    Relation.ReflTransGen.tail (Relation.ReflTransGen.tail .refl h1) h2
  exact ⟨le_refl 1,
    (orchestrator_bounded_exactly_once_join 1 [7] _ (le_refl 1) hreach).2.2 ⟨rfl, rfl⟩⟩

/-- C4: an archive produced by the backup naming step under gzip
compression always ends in `.tar.gz`, so the restore pipeline selects the
gzip decode path for it no matter what any sidecar says. -/
theorem backup_restore_roundtrip_gzip (cfg : Config) (imageName ts : Str)
    (sidecar : SidecarView) (hgz : cfg.compressType = strL "gzip") :
    restoreKind (tarballName cfg imageName ts) sidecar = .gzip ∧
      restoreLoadCommand (tarballName cfg imageName ts) sidecar =
        .gunzipPipe (tarballName cfg imageName ts) := by
  have hsuf : hasSuffix (tarballName cfg imageName ts) (strL ".tar.gz") = true := by
    apply hasSuffix_iff.mpr
    unfold tarballName
    rw [if_pos hgz]
    have h1 : strL ".tar" <:+
        safeImageName imageName ++ strL "-" ++ ts ++ strL ".tar" :=
      List.suffix_append _ _
    have h2 := (suffix_append_right (strL ".gz") h1).trans
      (suffix_append_right (strL ".gz")
        (suffix_filepathJoin cfg.backupDir
          (safeImageName imageName ++ strL "-" ++ ts ++ strL ".tar")))
    exact h2
  have hcomp : restoreCompressed (tarballName cfg imageName ts) sidecar = true := by
    unfold restoreCompressed
    rw [hsuf]
    simp
  exact ⟨by unfold restoreKind; rw [hcomp]; rfl,
    by unfold restoreLoadCommand; rw [hcomp]; rfl⟩

/-- Witness for C4: the spec's example, item `demo:1.0` backed up gzipped
into directory `docker-backups`, restores along the gzip decode path even
with a sidecar that claims `none`. -/
theorem backup_restore_roundtrip_gzip_witness :
    (⟨strL "docker-backups", 3, false, strL "gzip"⟩ : Config).compressType =
        strL "gzip" ∧
      restoreKind
        (tarballName ⟨strL "docker-backups", 3, false, strL "gzip"⟩
          (strL "demo:1.0") (strL "20250101-120000"))
        (.parsed ⟨strL "demo:1.0", strL "sha256:abc", [], 0, 0, strL "none"⟩) =
        .gzip :=
  ⟨rfl,
    (backup_restore_roundtrip_gzip ⟨strL "docker-backups", 3, false, strL "gzip"⟩
      (strL "demo:1.0") (strL "20250101-120000")
      (.parsed ⟨strL "demo:1.0", strL "sha256:abc", [], 0, 0, strL "none"⟩)
      rfl).1⟩

/-- C5: the naming step produces exactly the spec's archive path shape
(with `.gz` appended precisely when the configured compression is gzip),
the two sanitization passes equal one spec-side pass replacing `/` and `:`
by `_`, the sanitized item contains neither `/` nor `:`, and the sidecar
path is always the archive path with `.json` appended. -/
theorem archive_naming_policy (cfg : Config) (imageName ts : Str) :
    tarballName cfg imageName ts =
        specArchivePath cfg.backupDir (safeImageName imageName) ts
          (compressionKindOf cfg.compressType) ∧
      safeImageName imageName =
        imageName.map (fun c => if c = '/' ∨ c = ':' then '_' else c) ∧
      (safeImageName imageName).all
        (fun c => decide (c ≠ '/') && decide (c ≠ ':')) = true ∧
      metadataPathOf (tarballName cfg imageName ts) =
        tarballName cfg imageName ts ++ strL ".json" := by
  have hmap : (fun c => if c = ':' then '_' else c) ∘
      (fun c => if c = '/' then '_' else c) =
      fun c => if c = '/' ∨ c = ':' then '_' else c := by
    funext c
    by_cases h1 : c = '/'
    · subst h1; decide
    · by_cases h2 : c = ':'
      · subst h2; decide
      · simp [h1, h2]
  refine ⟨?_, ?_, ?_, rfl⟩
  · unfold tarballName specArchivePath compressionKindOf
    by_cases hgz : cfg.compressType = strL "gzip"
    · rw [if_pos hgz, if_pos hgz]
      rw [filepathJoin_append]
    · rw [if_neg hgz, if_neg hgz]
      simp
  · unfold safeImageName replaceAllChar
    rw [List.map_map, hmap]
  · unfold safeImageName replaceAllChar
    rw [List.map_map, hmap, List.all_map, List.all_eq_true]
    intro c _
    by_cases h1 : c = '/'
    · subst h1; decide
    · by_cases h2 : c = ':'
      · subst h2; decide
      · simp [h1, h2]

/-- C8: with an empty resolved work-item list, both `runBackup` and
`runRestore` terminate with the fatal no-work-items error; the error result
carries no batch, so no per-item pipeline (archive, sidecar or load) runs
and no worker is started. -/
theorem empty_batch_is_fatal (cfg : Config) (benv : RunBackupEnv)
    (renv : Str → RestoreEnv) :
    runBackupResolved cfg benv [] = .error .noWorkItems ∧
      runRestoreResolved renv [] = .error .noWorkItems :=
  ⟨rfl, rfl⟩

/-- C3: the batch produces one outcome per item (no item is skipped because
another failed), the outcome at each position is a pure function of that
item and its own environment alone (so one item's inspect, save, metadata
or load failure cannot prevent or cancel any other item), and every
item-level error is an ordinary `BackupOutcome`/`RestoreOutcome` value
caught inside the pipeline — nothing unwinds past the batch runner. -/
theorem item_failure_isolated (cfg : Config) (envB : Str → BackupEnv)
    (tsB : Str → Str) (items : List Str) (envR : Str → RestoreEnv)
    (paths : List Str) (j k : Nat) (hj : j < items.length)
    (hk : k < paths.length)
    (hjb : j < (backupBatchOutcomes cfg envB tsB items).length)
    (hkr : k < (restoreBatchOutcomes envR paths).length) :
    (backupBatchOutcomes cfg envB tsB items).length = items.length ∧
      (restoreBatchOutcomes envR paths).length = paths.length ∧
      (backupBatchOutcomes cfg envB tsB items).get ⟨j, hjb⟩ =
        backupOutcome cfg (envB (items.get ⟨j, hj⟩)) (items.get ⟨j, hj⟩)
          (tsB (items.get ⟨j, hj⟩)) ∧
      (restoreBatchOutcomes envR paths).get ⟨k, hkr⟩ =
        restoreImage (envR (paths.get ⟨k, hk⟩)) (paths.get ⟨k, hk⟩) := by
  refine ⟨by simp [backupBatchOutcomes], by simp [restoreBatchOutcomes], ?_, ?_⟩
  · simp [backupBatchOutcomes]
  · simp [restoreBatchOutcomes]

/-- Witness for C3: in a two-item backup batch whose first item fails
inspection, the second item's outcome is still its own pipeline result, and
the singleton restore batch behaves likewise. -/
theorem item_failure_isolated_witness :
    (1 : Nat) < ([strL "bad", strL "good"] : List Str).length ∧
      (backupBatchOutcomes ⟨strL "docker-backups", 3, false, strL "gzip"⟩
          (fun n => if n = strL "bad" then ⟨Option.none, true, true, true, 0⟩
            else ⟨some ⟨strL "sha256:abc", [], 5⟩, true, true, true, 0⟩)
          (fun _ => strL "20250101-120000")
          [strL "bad", strL "good"]).get ⟨1, by decide⟩ =
        backupOutcome ⟨strL "docker-backups", 3, false, strL "gzip"⟩
          ⟨some ⟨strL "sha256:abc", [], 5⟩, true, true, true, 0⟩
          (strL "good") (strL "20250101-120000") := by
  refine ⟨by decide, ?_⟩
  have h := (item_failure_isolated ⟨strL "docker-backups", 3, false, strL "gzip"⟩
    (fun n => if n = strL "bad" then ⟨Option.none, true, true, true, 0⟩
      else ⟨some ⟨strL "sha256:abc", [], 5⟩, true, true, true, 0⟩)
    (fun _ => strL "20250101-120000")
    [strL "bad", strL "good"]
    (fun _ => ⟨.absent, true⟩) [strL "p.tar"] 1 0 (by decide) (by decide)
    (by simp [backupBatchOutcomes]) (by simp [restoreBatchOutcomes])).2.2.1
  simpa using h

/-- C7: once the archive save has succeeded, a failure to create the
sidecar — or to encode into it — reports that item's error and stops only
that item's remaining steps, while the file list still contains the
already-written archive: nothing deletes or retracts it, so the archive
remains as an orphan without (valid) metadata. -/
theorem orphaned_archive_on_metadata_failure (cfg : Config) (env : BackupEnv)
    (imageName ts : Str) (fs : List Str) (img : ImageInspect)
    (hins : env.inspect = some img) (hsave : env.saveOk = true) :
    (env.createMetaOk = false →
      backupImage cfg env imageName ts fs =
        (.metadataCreateFailed, tarballName cfg imageName ts :: fs)) ∧
      (env.createMetaOk = true → env.encodeOk = false →
        backupImage cfg env imageName ts fs =
          (.metadataEncodeFailed,
            metadataPathOf (tarballName cfg imageName ts) ::
              tarballName cfg imageName ts :: fs)) := by
  constructor
  · intro hcreate
    simp [backupImage, hins, hsave, hcreate]
  · intro hcreate hencode
    simp [backupImage, hins, hsave, hcreate, hencode]

/-- Witness for C7: a concrete item whose sidecar creation fails after a
successful save ends with exactly the archive on disk and the
metadata-create error reported. -/
theorem orphaned_archive_on_metadata_failure_witness :
    (⟨some ⟨strL "sha256:abc", [], 5⟩, true, false, true, 0⟩ : BackupEnv).saveOk
        = true ∧
      backupImage ⟨strL "docker-backups", 3, false, strL "gzip"⟩
          ⟨some ⟨strL "sha256:abc", [], 5⟩, true, false, true, 0⟩
          (strL "demo:1.0") (strL "20250101-120000") [] =
        (.metadataCreateFailed,
          [tarballName ⟨strL "docker-backups", 3, false, strL "gzip"⟩
            (strL "demo:1.0") (strL "20250101-120000")]) :=
  ⟨rfl,
    (orphaned_archive_on_metadata_failure
      ⟨strL "docker-backups", 3, false, strL "gzip"⟩
      ⟨some ⟨strL "sha256:abc", [], 5⟩, true, false, true, 0⟩
      (strL "demo:1.0") (strL "20250101-120000") []
      ⟨strL "sha256:abc", [], 5⟩ rfl rfl).1 rfl⟩

/-- C10: when the path carries no recognized compressed suffix and the
sidecar parsed, the item is treated as gzip only for the exact string
`gzip` in `compress_type`; any other value selects the plain `docker load`
path, and with a healthy load the pipeline reports plain success — no error
is ever raised for the unrecognized value. -/
theorem sidecar_gzip_requires_exact_match (tarballPath : Str)
    (info : ImageInfo)
    (h1 : hasSuffix tarballPath (strL ".tar.gz") = false)
    (h2 : hasSuffix tarballPath (strL ".tgz") = false)
    (hct : info.compressType ≠ strL "gzip") :
    restoreKind tarballPath (.parsed info) = .none ∧
      restoreLoadCommand tarballPath (.parsed info) = .dockerLoad tarballPath ∧
      restoreImage ⟨.parsed info, true⟩ tarballPath =
        .restored (.dockerLoad tarballPath) := by
  have hcomp : restoreCompressed tarballPath (.parsed info) = false := by
    unfold restoreCompressed
    rw [h1, h2]
    simp [hct]
  refine ⟨?_, ?_, ?_⟩ <;>
    simp [restoreKind, restoreLoadCommand, restoreImage, hcomp]

/-- Witness for C10: the sidecar value `GZIP` (wrong case) on `img.tar`
silently selects the uncompressed load path and succeeds. -/
theorem sidecar_gzip_requires_exact_match_witness :
    hasSuffix (strL "img.tar") (strL ".tar.gz") = false ∧
      restoreImage
          ⟨.parsed ⟨strL "demo", strL "sha256:abc", [], 0, 0, strL "GZIP"⟩, true⟩
          (strL "img.tar") =
        .restored (.dockerLoad (strL "img.tar")) :=
  ⟨by decide,
    (sidecar_gzip_requires_exact_match (strL "img.tar")
      ⟨strL "demo", strL "sha256:abc", [], 0, 0, strL "GZIP"⟩
      (by decide) (by decide) (by decide)).2.2⟩

/-- C6: every regular directory file with an archive suffix appears in the
catalog listing (for any order the map iteration takes), carrying its
filesystem attributes and the sidecar lookup as enrichment; a parsed sidecar
named `{archive}.json` makes that lookup its parsed record, while a missing
or unparseable sidecar leaves the lookup empty — the archive itself stays
listed either way. -/
theorem catalog_lists_every_archive (entries : List DirEntry)
    (content : Str → Option ImageInfo) (order : List Str) (e : DirEntry)
    (hnd : (entries.map DirEntry.name).Nodup)
    (hord : order.Perm (tarKeys entries))
    (he : e ∈ entries) (hdir : e.isDir = false) (hinfo : e.infoOk = true)
    (harch : isArchiveName e.name = true) :
    (⟨e.name, e.size, e.modTime,
        List.lookup e.name (metaFiles entries content)⟩ : CatalogEntry) ∈
      catalogListing entries content order ∧
      (∀ s ∈ entries, s.name = e.name ++ strL ".json" → s.isDir = false →
        s.infoOk = true → ∀ i, content s.name = some i →
          List.lookup e.name (metaFiles entries content) = some i) ∧
      (content (e.name ++ strL ".json") = none →
        List.lookup e.name (metaFiles entries content) = none) ∧
      ((∀ s ∈ entries, s.name ≠ e.name ++ strL ".json") →
        List.lookup e.name (metaFiles entries content) = none) := by
  have hmemtar : (e.name, e) ∈ tarFiles entries :=
    mem_tarFiles_iff.mpr ⟨he, rfl, hdir, hinfo, harch⟩
  refine ⟨?_, ?_, ?_, ?_⟩
  · have hlook : List.lookup e.name (tarFiles entries) = some e :=
      lookup_of_mem_of_nodup (tarKeys_nodup hnd) hmemtar
    have hkey : e.name ∈ order :=
      hord.mem_iff.mpr (List.mem_map.mpr ⟨(e.name, e), hmemtar, rfl⟩)
    unfold catalogListing
    exact List.mem_filterMap.mpr ⟨e.name, hkey, by rw [hlook]; rfl⟩
  · intro s hs hname hsdir hsinfo i hci
    exact lookup_of_mem_of_nodup (metaKeys_nodup content hnd)
      (mem_metaFiles_iff.mpr ⟨s, hs, hsdir, hsinfo, hname, hci⟩)
  · intro hnone
    apply lookup_eq_none_of_not_mem
    intro hmem
    obtain ⟨⟨k, i⟩, hki, hfst⟩ := List.mem_map.mp hmem
    rw [show k = e.name from hfst] at hki
    obtain ⟨s, hs, _, _, hname, hcont⟩ := mem_metaFiles_iff.mp hki
    rw [hname, hnone] at hcont
    cases hcont
  · intro hnos
    apply lookup_eq_none_of_not_mem
    intro hmem
    obtain ⟨⟨k, i⟩, hki, hfst⟩ := List.mem_map.mp hmem
    rw [show k = e.name from hfst] at hki
    obtain ⟨s, hs, _, _, hname, _⟩ := mem_metaFiles_iff.mp hki
    exact hnos s hs hname

/-- Directory fixture: two archives, a parseable sidecar for `a.tar` and a
malformed sidecar for `b.tar`. -/
def entriesW : List DirEntry :=
  [⟨strL "a.tar", false, true, 10, 5⟩,
   ⟨strL "a.tar.json", false, true, 1, 5⟩,
   ⟨strL "b.tar", false, true, 20, 6⟩,
   ⟨strL "b.tar.json", false, true, 1, 6⟩]

/-- The record the parseable sidecar of the fixture decodes to. -/
def infoW : ImageInfo :=
  ⟨strL "a:1.0", strL "sha256:aaa", [strL "a:1.0"], 10, 0, strL "gzip"⟩

/-- Sidecar contents of the fixture: only `a.tar.json` parses. -/
def contentW : Str → Option ImageInfo :=
  fun n => if n = strL "a.tar.json" then some infoW else Option.none

/-- Witness for C6: in the fixture, `a.tar` is listed enriched with its
parsed sidecar and `b.tar` is still listed, with attributes only, despite
its malformed sidecar. -/
theorem catalog_lists_every_archive_witness :
    (entriesW.map DirEntry.name).Nodup ∧
      (⟨strL "a.tar", 10, 5,
          List.lookup (strL "a.tar") (metaFiles entriesW contentW)⟩ :
        CatalogEntry) ∈ catalogListing entriesW contentW (tarKeys entriesW) ∧
      List.lookup (strL "a.tar") (metaFiles entriesW contentW) = some infoW ∧
      (⟨strL "b.tar", 20, 6,
          List.lookup (strL "b.tar") (metaFiles entriesW contentW)⟩ :
        CatalogEntry) ∈ catalogListing entriesW contentW (tarKeys entriesW) ∧
      List.lookup (strL "b.tar") (metaFiles entriesW contentW) = none := by
  have ha := catalog_lists_every_archive entriesW contentW (tarKeys entriesW)
    ⟨strL "a.tar", false, true, 10, 5⟩ (by decide) (List.Perm.refl _)
    (by decide) rfl rfl (by decide)
  have hb := catalog_lists_every_archive entriesW contentW (tarKeys entriesW)
    ⟨strL "b.tar", false, true, 20, 6⟩ (by decide) (List.Perm.refl _)
    (by decide) rfl rfl (by decide)
  refine ⟨by decide, ha.1, ?_, hb.1, ?_⟩
  · exact ha.2.1 ⟨strL "a.tar.json", false, true, 1, 5⟩ (by decide) (by decide)
      rfl rfl infoW (by decide)
  · exact hb.2.2.1 (by decide)

/-- Directory fixture for the ordering claim: two archives, no sidecars. -/
def entriesOrd : List DirEntry :=
  [⟨strL "a.tar", false, true, 1, 0⟩, ⟨strL "b.tar", false, true, 2, 0⟩]

/-- Sidecar contents for the ordering fixture: nothing parses. -/
def contentOrd : Str → Option ImageInfo := fun _ => Option.none

/-- C9 counterexample: `runList` iterates a Go map, whose iteration order
is not specified, so two runs over the same directory contents may visit
the keys in different orders — here the key order and its reverse are both
faithful runs, and they present the same entries in different orders.  The
claimed determinism fails on the code. -/
theorem catalog_order_not_deterministic :
    ((tarKeys entriesOrd).reverse.Perm (tarKeys entriesOrd)) ∧
      catalogListing entriesOrd contentOrd ((tarKeys entriesOrd).reverse) ≠
        catalogListing entriesOrd contentOrd (tarKeys entriesOrd) := by
  constructor
  · exact List.reverse_perm _
  · decide

/-- C9 amended: any two runs of the catalog listing over the same directory
contents present the same multiset of entries — the listing is deterministic
only up to permutation, not in its order. -/
theorem catalog_order_perm (entries : List DirEntry)
    (content : Str → Option ImageInfo) (o1 o2 : List Str)
    (h1 : o1.Perm (tarKeys entries)) (h2 : o2.Perm (tarKeys entries)) :
    (catalogListing entries content o1).Perm
      (catalogListing entries content o2) :=
  (h1.trans h2.symm).filterMap _

/-- Witness for the amended C9: the two concrete runs of the counterexample
fixture are permutations of one another. -/
theorem catalog_order_perm_witness :
    ((tarKeys entriesOrd).reverse.Perm (tarKeys entriesOrd)) ∧
      (catalogListing entriesOrd contentOrd ((tarKeys entriesOrd).reverse)).Perm
        (catalogListing entriesOrd contentOrd (tarKeys entriesOrd)) :=
  ⟨List.reverse_perm _,
    catalog_order_perm entriesOrd contentOrd _ _ (List.reverse_perm _)
      (List.Perm.refl _)⟩
